import Mathlib

/-!
Verification development for the airline-fares orchestration core.

The definitions below are a shallow embedding of the Python sources:
`core/models.py` (FlightRequest, FlightResult), `core/exceptions.py`
(ScraperError), and `core/orchestrator.py` (FlightOrchestrator.register_scraper
and FlightOrchestrator.scan_all).  Machine-level details are modelled as
follows: Python `datetime.date` becomes a year/month/day record compared
lexicographically; numeric prices (floats in the source, used only for
ordering) become integers; Python's stable `list.sort(key=price)` becomes
`List.insertionSort`, a stable ascending sort (stable sorts of a list under a
total preorder are unique, so any stable sort embeds `list.sort` exactly);
`raise`/`except` becomes `Except`; the nondeterministic completion order of
`concurrent.futures.as_completed` becomes an explicit list of
(job name, outcome) pairs given in completion order.
-/

namespace AirlineFares

/-- Python `datetime.date`: year, month (1-12), day (1-31). -/
structure Date where
  year : Nat
  month : Nat
  day : Nat
deriving DecidableEq

/-- Python `date.__lt__`: lexicographic comparison on (year, month, day). -/
def Date.ltB (a b : Date) : Bool :=
  a.year < b.year ||
    (a.year == b.year && (a.month < b.month ||
      (a.month == b.month && a.day < b.day)))

/-- `core/models.py` FlightRequest fields. -/
structure FlightRequest where
  origin : String
  destination : String
  departure_date : Date
  return_date : Date
  adults : Int
deriving DecidableEq

/-- `FlightRequest.__post_init__` (`core/models.py` lines 16-23): dataclass
construction runs the validator and raises `ValueError` on bad input.
Python string truthiness: `not self.origin` is true exactly for `""`. -/
def mkFlightRequest (origin destination : String) (departure_date return_date : Date)
    (adults : Int) : Except String FlightRequest :=
  if origin = "" || destination = "" then
    .error "Origin and destination are required"
  else if !(Date.ltB departure_date return_date) then
    .error "Return date must be after departure date"
  else if adults < 1 then
    .error "At least 1 adult passenger required"
  else
    .ok ⟨origin, destination, departure_date, return_date, adults⟩

/-- `core/models.py` FlightResult.  `price` is a float in the source, used
only for sorting; it is modelled as an integer. -/
structure FlightResult where
  airline : String
  origin : String
  destination : String
  departure_date : String
  return_date : String
  price : Int
  currency : String
  price_display : String
  is_lowest : Bool
  screenshot_paths : List String
deriving DecidableEq

/-- The sort key of `airline_results.sort(key=lambda x: x.price)`. -/
def priceOrder (a b : FlightResult) : Prop := a.price ≤ b.price

instance : DecidableRel priceOrder :=
  fun a b => inferInstanceAs (Decidable (a.price ≤ b.price))

instance : IsTotal FlightResult priceOrder :=
  ⟨fun a b => Int.le_total a.price b.price⟩

instance : IsTrans FlightResult priceOrder :=
  ⟨fun _ _ _ h1 h2 => le_trans h1 h2⟩

/-- Python `list.sort(key=lambda x: x.price)`: a stable ascending sort. -/
def sortedByPrice (offers : List FlightResult) : List FlightResult :=
  List.insertionSort priceOrder offers

/-- `strftime("%b")`: abbreviated month name. -/
def monthAbbrev : Nat → String
  | 1 => "Jan" | 2 => "Feb" | 3 => "Mar" | 4 => "Apr" | 5 => "May" | 6 => "Jun"
  | 7 => "Jul" | 8 => "Aug" | 9 => "Sep" | 10 => "Oct" | 11 => "Nov" | 12 => "Dec"
  | _ => ""

/-- `strftime("%B")`: full month name. -/
def monthFull : Nat → String
  | 1 => "January" | 2 => "February" | 3 => "March" | 4 => "April"
  | 5 => "May" | 6 => "June" | 7 => "July" | 8 => "August"
  | 9 => "September" | 10 => "October" | 11 => "November" | 12 => "December"
  | _ => ""

/-- `strftime("%d")`: zero-padded day of month. -/
def dayPadded (d : Nat) : String :=
  (if d < 10 then "0" else "") ++ toString d

/-- `strftime("%-d")`: unpadded day of month. -/
def dayUnpadded (d : Nat) : String :=
  toString d

/-- The four date strings generated per side in `scan_all`
(`core/orchestrator.py` lines 72-83): `"%b %-d"`, `"%b %d"`, `"%B %-d"`,
`"%B %d"`. -/
def dateFormats (d : Date) : List String :=
  [ monthAbbrev d.month ++ " " ++ dayUnpadded d.day,
    monthAbbrev d.month ++ " " ++ dayPadded d.day,
    monthFull d.month ++ " " ++ dayUnpadded d.day,
    monthFull d.month ++ " " ++ dayPadded d.day ]

/-- `pat` is a leading segment of `hay` (character lists). -/
def leadsList : List Char → List Char → Bool
  | [], _ => true
  | _ :: _, [] => false
  | p :: ps, c :: t => p == c && leadsList ps t

/-- Substring containment on character lists. -/
def containsSub (hay pat : List Char) : Bool :=
  match hay with
  | [] => pat.isEmpty
  | c :: t => leadsList pat (c :: t) || containsSub t pat

/-- Python's `fmt in date_str` operator: substring containment. -/
def strContains (hay pat : String) : Bool :=
  containsSub hay.data pat.data

/-- `is_match` helper in `scan_all` (`core/orchestrator.py` lines 86-87):
`any(fmt in date_str for fmt in formats)`. -/
def is_match (date_str : String) (formats : List String) : Bool :=
  formats.any (fun fmt => strContains date_str fmt)

/-- The exact-match test applied to one offer in the scan loop
(`core/orchestrator.py` line 91). -/
def isExactOffer (request : FlightRequest) (r : FlightResult) : Bool :=
  is_match r.departure_date (dateFormats request.departure_date) &&
    is_match r.return_date (dateFormats request.return_date)

/-- The ranking step of `scan_all` (`core/orchestrator.py` lines 64-104):
sort by price, scan the sorted list for the first exact date match, and if
one is found pin it first and `list.remove` it from the pool (removal of the
first `==`-equal element), then append the 9 cheapest of the remainder. -/
def rankResults (request : FlightRequest) (airline_results : List FlightResult) :
    List FlightResult :=
  let sorted := sortedByPrice airline_results
  match sorted.find? (isExactOffer request) with
  | some m => m :: (sorted.erase m).take 9
  | none => sorted.take 9

/-- `core/exceptions.py` ScraperError after `__init__` ran. -/
structure ScraperError where
  message : String
  screenshot_path : Option String
  html_path : Option String
  screenshot_paths : List String
deriving DecidableEq

/-- `ScraperError.__init__` (`core/exceptions.py` lines 6-21).
`screenshot_paths or []` maps an absent or empty list to `[]`;
`if screenshot_path and screenshot_path not in self.screenshot_paths`
uses Python truthiness, so `None` and `""` are both skipped. -/
def mkScraperError (message : String) (screenshot_path : Option String)
    (html_path : Option String) (screenshot_paths : Option (List String)) :
    ScraperError :=
  let paths := screenshot_paths.getD []
  match screenshot_path with
  | none => ⟨message, screenshot_path, html_path, paths⟩
  | some s =>
    if s = "" then ⟨message, screenshot_path, html_path, paths⟩
    else if s ∈ paths then ⟨message, screenshot_path, html_path, paths⟩
    else ⟨message, screenshot_path, html_path, paths ++ [s]⟩

/-- Outcome of one job's `future.result()` in `scan_all`: a returned offer
list, a raised `ScraperError` (diagnosed failure), or any other raised
exception (undiagnosed failure), carrying `str(e)`. -/
inductive JobOutcome where
  | success (offers : List FlightResult)
  | diagnosed (se : ScraperError)
  | undiagnosed (message : String)
deriving DecidableEq

/-- One entry of the `errors` list built by `scan_all`
(`core/orchestrator.py` lines 110-121): a dict with keys
`airline`, `message`, `screenshot_path`. -/
structure ErrorEntry where
  airline : String
  message : String
  screenshot_path : Option String
deriving DecidableEq

/-- Python dict assignment `d[k] = v`: overwrite in place if the key is
present (keeping its insertion position), else append. -/
def dictInsert (d : List (String × List FlightResult)) (k : String)
    (v : List FlightResult) : List (String × List FlightResult) :=
  if d.any (fun p => p.1 == k) then
    d.map (fun p => if p.1 == k then (k, v) else p)
  else
    d ++ [(k, v)]

/-- Key list of the modelled dict, in insertion order. -/
def keys (d : List (String × List FlightResult)) : List String :=
  d.map Prod.fst

/-- Processing of one completed future in `scan_all`'s collection loop
(`core/orchestrator.py` lines 57-121): an empty offer list is skipped
(`if not airline_results: continue`), a non-empty one is ranked and stored
under the scraper's name, a `ScraperError` appends an error entry carrying
`se.screenshot_path`, and any other exception appends one carrying `None`. -/
def scanStep (request : FlightRequest)
    (acc : List (String × List FlightResult) × List ErrorEntry)
    (c : String × JobOutcome) :
    List (String × List FlightResult) × List ErrorEntry :=
  match c.2 with
  | .success offers =>
    if offers.isEmpty then acc
    else (dictInsert acc.1 c.1 (rankResults request offers), acc.2)
  | .diagnosed se => (acc.1, acc.2 ++ [⟨c.1, se.message, se.screenshot_path⟩])
  | .undiagnosed msg => (acc.1, acc.2 ++ [⟨c.1, msg, none⟩])

/-- `FlightOrchestrator.scan_all` (`core/orchestrator.py` lines 31-123),
given the per-job outcomes in the order `as_completed` delivers them. -/
def scan_all (request : FlightRequest) (completions : List (String × JobOutcome)) :
    List (String × List FlightResult) × List ErrorEntry :=
  completions.foldl (scanStep request) ([], [])

/-- The error entry `scan_all` appends for a failed job, if any:
`none` for a success, the diagnosed entry for a `ScraperError`, the
undiagnosed entry for any other exception. -/
def errOf : String × JobOutcome → Option ErrorEntry
  | (_, .success _) => none
  | (n, .diagnosed se) => some ⟨n, se.message, se.screenshot_path⟩
  | (n, .undiagnosed msg) => some ⟨n, msg, none⟩

/-- The registered-scraper view used by the orchestrator: a named job. -/
structure AirlineScraper where
  name : String
deriving DecidableEq

/-- `FlightOrchestrator` state: the scraper registry. -/
structure FlightOrchestrator where
  scrapers : List AirlineScraper
deriving DecidableEq

/-- `FlightOrchestrator.register_scraper` (`core/orchestrator.py` lines
21-29): unconditional append, no duplicate-name check. -/
def register_scraper (o : FlightOrchestrator) (s : AirlineScraper) :
    FlightOrchestrator :=
  ⟨o.scrapers ++ [s]⟩

/-- A sample offer used by concrete witnesses. -/
def mkOffer (dep ret : String) (price : Int) : FlightResult :=
  ⟨"Emirates", "LOS", "CAN", dep, ret, price, "NGN", "NGN display", false, []⟩

/-- A sample request used by concrete witnesses: LOS→CAN,
departing 2025-12-03, returning 2025-12-23, one adult. -/
def sampleRequest : FlightRequest :=
  ⟨"LOS", "CAN", ⟨2025, 12, 3⟩, ⟨2025, 12, 23⟩, 1⟩

/-- `n` non-matching offers with distinct prices 0..n-1, used by witnesses. -/
def witnessOffers (n : Nat) : List FlightResult :=
  (List.range n).map (fun i => mkOffer "Jan 1" "Jan 2" (i : Int))

/-- An expensive offer whose labels exactly match `sampleRequest`'s dates. -/
def matchOffer : FlightResult := mkOffer "Dec 3" "Dec 23" 999

/-- Offers with prices [100, 80, 120] and non-matching labels. -/
def stableOffers : List FlightResult :=
  [mkOffer "Jan 1" "Jan 2" 100, mkOffer "Jan 1" "Jan 2" 80,
    mkOffer "Jan 1" "Jan 2" 120]

/-- Completion list used by witnesses: job A succeeds with one offer, job B
raises a diagnosed failure with two diagnostic paths, job C raises an
undiagnosed failure. -/
def witnessComps : List (String × JobOutcome) :=
  [("A", .success [mkOffer "Jan 1" "Jan 2" 5]),
    ("B", .diagnosed (mkScraperError "boom" (some "p2") none
      (some ["p1", "p2"]))),
    ("C", .undiagnosed "crash")]

/-! ### Helper lemmas -/

theorem leadsList_iff (pat : List Char) : ∀ hay : List Char,
    leadsList pat hay = true ↔ ∃ t, hay = pat ++ t := by
  induction pat with
  | nil => intro hay; simp [leadsList]
  | cons p ps ih =>
    intro hay
    cases hay with
    | nil => simp [leadsList]
    | cons c t =>
      simp only [leadsList, Bool.and_eq_true, beq_iff_eq, ih, List.cons_append,
        List.cons.injEq]
      constructor
      · rintro ⟨rfl, u, rfl⟩
        exact ⟨u, rfl, rfl⟩
      · rintro ⟨u, rfl, rfl⟩
        exact ⟨rfl, u, rfl⟩

theorem containsSub_iff (pat : List Char) : ∀ hay : List Char,
    containsSub hay pat = true ↔ ∃ l1 l2, hay = l1 ++ pat ++ l2 := by
  intro hay
  induction hay with
  | nil =>
    simp only [containsSub, List.isEmpty_iff]
    constructor
    · rintro rfl
      exact ⟨[], [], rfl⟩
    · rintro ⟨l1, l2, h⟩
      rcases List.append_eq_nil.mp (List.append_eq_nil.mp h.symm).1 with ⟨-, h2⟩
      exact h2
  | cons c t ih =>
    simp only [containsSub, Bool.or_eq_true, leadsList_iff, ih]
    constructor
    · rintro (⟨u, h⟩ | ⟨l1, l2, h⟩)
      · exact ⟨[], u, by simp [h]⟩
      · exact ⟨c :: l1, l2, by simp [h]⟩
    · rintro ⟨l1, l2, h⟩
      cases l1 with
      | nil =>
        left
        exact ⟨l2, by simpa using h⟩
      | cons x l1 =>
        right
        rw [List.cons_append, List.cons_append, List.cons.injEq] at h
        exact ⟨l1, l2, h.2⟩

theorem sortedByPrice_perm (l : List FlightResult) :
    List.Perm (sortedByPrice l) l :=
  List.perm_insertionSort priceOrder l

theorem sortedByPrice_sorted (l : List FlightResult) :
    (sortedByPrice l).Pairwise priceOrder :=
  List.sorted_insertionSort priceOrder l

theorem filter_price_sortedByPrice (l : List FlightResult) (p : Int) :
    (sortedByPrice l).filter (fun o => o.price == p) =
      l.filter (fun o => o.price == p) := by
  have hpw : (l.filter (fun o => o.price == p)).Pairwise priceOrder := by
    apply List.pairwise_of_forall_mem_list
    intro a ha b hb
    have ha2 : a.price = p := by simpa using (List.mem_filter.mp ha).2
    have hb2 : b.price = p := by simpa using (List.mem_filter.mp hb).2
    show a.price ≤ b.price
    omega
  have hsub : List.Sublist (l.filter (fun o => o.price == p)) (sortedByPrice l) :=
    List.sublist_insertionSort hpw (List.filter_sublist l)
  have hsub2 := hsub.filter (fun o => o.price == p)
  rw [List.filter_eq_self.mpr (fun a ha => (List.mem_filter.mp ha).2)] at hsub2
  have hperm : List.Perm ((sortedByPrice l).filter (fun o => o.price == p))
      (l.filter (fun o => o.price == p)) :=
    (sortedByPrice_perm l).filter _
  exact (hsub2.eq_of_length hperm.length_eq.symm).symm

theorem keys_dictInsert_of_any (d : List (String × List FlightResult))
    (k : String) (v : List FlightResult)
    (h : d.any (fun p => p.1 == k) = true) :
    keys (dictInsert d k v) = keys d := by
  simp only [dictInsert, if_pos h, keys, List.map_map]
  apply List.map_congr_left
  intro p _
  by_cases hpk : p.1 = k
  · simp [Function.comp, hpk]
  · simp [Function.comp, hpk]

theorem mem_keys_dictInsert (d : List (String × List FlightResult))
    (k : String) (v : List FlightResult) (a : String) :
    a ∈ keys (dictInsert d k v) ↔ a ∈ keys d ∨ a = k := by
  by_cases h : d.any (fun p => p.1 == k) = true
  · rw [keys_dictInsert_of_any d k v h]
    constructor
    · exact Or.inl
    · rintro (h2 | rfl)
      · exact h2
      · obtain ⟨p, hp, hpk⟩ := List.any_eq_true.mp h
        have hk : p.1 = a := by simpa using hpk
        exact hk ▸ List.mem_map_of_mem Prod.fst hp
  · simp only [dictInsert, if_neg h, keys, List.map_append]
    simp

theorem nodup_keys_dictInsert (d : List (String × List FlightResult))
    (k : String) (v : List FlightResult) (hnd : (keys d).Nodup) :
    (keys (dictInsert d k v)).Nodup := by
  by_cases h : d.any (fun p => p.1 == k) = true
  · rw [keys_dictInsert_of_any d k v h]
    exact hnd
  · simp only [dictInsert, if_neg h, keys, List.map_append]
    simp only [List.nodup_append, List.map_cons, List.map_nil]
    refine ⟨hnd, List.nodup_singleton k, ?_⟩
    intro a ha hb
    simp only [List.mem_singleton] at hb
    subst hb
    simp only [List.any_eq_true, not_exists, not_and] at h
    push_neg at h
    obtain ⟨p, hp, hpa⟩ := List.mem_map.mp ha
    exact absurd (by simp [hpa]) (h p hp)

theorem scanFold_errors (req : FlightRequest) (comps : List (String × JobOutcome)) :
    ∀ res errs, (List.foldl (scanStep req) (res, errs) comps).2 =
      errs ++ comps.filterMap errOf := by
  induction comps with
  | nil => intro res errs; simp
  | cons c cs ih =>
    intro res errs
    obtain ⟨n, o⟩ := c
    cases o with
    | success offers =>
      by_cases he : offers.isEmpty <;>
        simp [List.foldl_cons, scanStep, he, ih, errOf]
    | diagnosed se => simp [List.foldl_cons, scanStep, ih, errOf]
    | undiagnosed msg => simp [List.foldl_cons, scanStep, ih, errOf]

theorem mem_keys_scanFold (req : FlightRequest)
    (comps : List (String × JobOutcome)) :
    ∀ res errs n, n ∈ keys (List.foldl (scanStep req) (res, errs) comps).1 ↔
      n ∈ keys res ∨
        ∃ offers, (n, JobOutcome.success offers) ∈ comps ∧ offers ≠ [] := by
  induction comps with
  | nil => intro res errs n; simp
  | cons c cs ih =>
    intro res errs n
    obtain ⟨m, o⟩ := c
    cases o with
    | success offers =>
      cases offers with
      | nil =>
        have hstep :
            List.foldl (scanStep req) (res, errs)
              ((m, JobOutcome.success []) :: cs) =
            List.foldl (scanStep req) (res, errs) cs := rfl
        rw [hstep, ih]
        simp only [List.mem_cons]
        constructor
        · rintro (h | ⟨os, hmem, hne⟩)
          · exact Or.inl h
          · exact Or.inr ⟨os, Or.inr hmem, hne⟩
        · rintro (h | ⟨os, hmem | hmem, hne⟩)
          · exact Or.inl h
          · exfalso
            apply hne
            have : JobOutcome.success os = JobOutcome.success [] :=
              (Prod.mk.injEq _ _ _ _ ▸ hmem).2
            simpa using this
          · exact Or.inr ⟨os, hmem, hne⟩
      | cons x xs =>
        have hstep :
            List.foldl (scanStep req) (res, errs)
              ((m, JobOutcome.success (x :: xs)) :: cs) =
            List.foldl (scanStep req)
              (dictInsert res m (rankResults req (x :: xs)), errs) cs := rfl
        rw [hstep, ih]
        rw [mem_keys_dictInsert]
        simp only [List.mem_cons]
        constructor
        · rintro ((h | rfl) | ⟨os, hmem, hne⟩)
          · exact Or.inl h
          · exact Or.inr ⟨x :: xs, Or.inl rfl, by simp⟩
          · exact Or.inr ⟨os, Or.inr hmem, hne⟩
        · rintro (h | ⟨os, hmem | hmem, hne⟩)
          · exact Or.inl (Or.inl h)
          · have hpair := Prod.mk.injEq _ _ _ _ ▸ hmem
            exact Or.inl (Or.inr hpair.1)
          · exact Or.inr ⟨os, hmem, hne⟩
    | diagnosed se =>
      simp only [List.foldl_cons, scanStep, ih, List.mem_cons]
      constructor
      · rintro (h | ⟨os, hmem, hne⟩)
        · exact Or.inl h
        · exact Or.inr ⟨os, Or.inr hmem, hne⟩
      · rintro (h | ⟨os, hmem | hmem, hne⟩)
        · exact Or.inl h
        · exact absurd ((Prod.mk.injEq _ _ _ _ ▸ hmem).2) (by simp)
        · exact Or.inr ⟨os, hmem, hne⟩
    | undiagnosed msg =>
      simp only [List.foldl_cons, scanStep, ih, List.mem_cons]
      constructor
      · rintro (h | ⟨os, hmem, hne⟩)
        · exact Or.inl h
        · exact Or.inr ⟨os, Or.inr hmem, hne⟩
      · rintro (h | ⟨os, hmem | hmem, hne⟩)
        · exact Or.inl h
        · exact absurd ((Prod.mk.injEq _ _ _ _ ▸ hmem).2) (by simp)
        · exact Or.inr ⟨os, hmem, hne⟩

theorem nodup_keys_scanFold (req : FlightRequest)
    (comps : List (String × JobOutcome)) :
    ∀ res errs, (keys res).Nodup →
      (keys (List.foldl (scanStep req) (res, errs) comps).1).Nodup := by
  induction comps with
  | nil => intro res errs h; simpa using h
  | cons c cs ih =>
    intro res errs h
    obtain ⟨m, o⟩ := c
    cases o with
    | success offers =>
      cases offers with
      | nil => exact ih res errs h
      | cons x xs =>
        have hstep :
            List.foldl (scanStep req) (res, errs)
              ((m, JobOutcome.success (x :: xs)) :: cs) =
            List.foldl (scanStep req)
              (dictInsert res m (rankResults req (x :: xs)), errs) cs := rfl
        rw [hstep]
        exact ih _ _ (nodup_keys_dictInsert res m _ h)
    | diagnosed se => exact ih _ _ h
    | undiagnosed msg => exact ih _ _ h

theorem filterMap_errOf_filter (n : String) :
    ∀ comps : List (String × JobOutcome),
      (comps.filterMap errOf).filter (fun e => e.airline == n) =
        (comps.filter (fun c => c.1 == n)).filterMap errOf := by
  intro comps
  induction comps with
  | nil => simp
  | cons c cs ih =>
    obtain ⟨m, o⟩ := c
    by_cases hmn : m = n
    · subst hmn
      cases o with
      | success offers => simp [errOf, ih]
      | diagnosed se => simp [errOf, ih]
      | undiagnosed msg => simp [errOf, ih]
    · cases o with
      | success offers => simp [errOf, hmn, ih]
      | diagnosed se => simp [errOf, hmn, ih]
      | undiagnosed msg => simp [errOf, hmn, ih]

theorem filter_name_nodup :
    ∀ (comps : List (String × JobOutcome)) (n : String) (o : JobOutcome),
      (comps.map Prod.fst).Nodup → (n, o) ∈ comps →
      comps.filter (fun c => c.1 == n) = [(n, o)] := by
  intro comps
  induction comps with
  | nil => intro n o _ h; simp at h
  | cons c cs ih =>
    intro n o hnd hmem
    obtain ⟨m, o2⟩ := c
    simp only [List.map_cons, List.nodup_cons] at hnd
    obtain ⟨hm, hnd2⟩ := hnd
    rcases List.mem_cons.mp hmem with heq | htail
    · have hpair := Prod.mk.injEq _ _ _ _ ▸ heq.symm
      obtain ⟨hm2, ho2⟩ := hpair
      subst hm2
      subst ho2
      rw [List.filter_cons]
      simp only [beq_self_eq_true, if_pos]
      have hrest : cs.filter (fun c => c.1 == m) = [] := by
        rw [List.filter_eq_nil_iff]
        intro c hc
        intro hcb
        apply hm
        have : c.1 = m := by simpa using hcb
        exact this ▸ List.mem_map_of_mem Prod.fst hc
      rw [hrest]
    · have hn : n ∈ cs.map Prod.fst := by
        have := List.mem_map_of_mem Prod.fst htail
        simpa using this
      have hmn : m ≠ n := fun h => hm (h ▸ hn)
      rw [List.filter_cons]
      simp only [show ((m, o2).1 == n) = false by simpa using hmn]
      simpa using ih n o hnd2 htail

theorem name_unique (comps : List (String × JobOutcome)) (n : String)
    (a b : JobOutcome) (hnd : (comps.map Prod.fst).Nodup)
    (ha : (n, a) ∈ comps) (hb : (n, b) ∈ comps) : a = b := by
  have h1 := filter_name_nodup comps n a hnd ha
  have h2 : (n, b) ∈ comps.filter (fun c => c.1 == n) := by
    rw [List.mem_filter]
    exact ⟨hb, by simp⟩
  rw [h1] at h2
  have := List.mem_singleton.mp h2
  exact ((Prod.mk.injEq _ _ _ _ ▸ this).2).symm

/-! ### Claim theorems -/

/-- Claim C3: FlightRequest construction fails exactly when the origin is
empty, or the destination is empty, or the departure date is not strictly
before the return date, or the passenger count is less than 1; on any input
satisfying all four invariants it succeeds and stores exactly the inputs. -/
theorem flight_request_validation (o d : String) (dep ret : Date) (a : Int) :
    ((mkFlightRequest o d dep ret a).isOk = false ↔
      (o = "" ∨ d = "" ∨ Date.ltB dep ret = false ∨ a < 1)) ∧
    ((o ≠ "" ∧ d ≠ "" ∧ Date.ltB dep ret = true ∧ 1 ≤ a) →
      mkFlightRequest o d dep ret a = .ok ⟨o, d, dep, ret, a⟩) := by
  constructor
  · unfold mkFlightRequest
    split_ifs with h1 h2 h3
    · simp only [Except.isOk, Except.toBool, Bool.or_eq_true,
        decide_eq_true_eq] at h1 ⊢
      tauto
    · simp only [Except.isOk, Except.toBool, Bool.not_eq_true'] at h2 ⊢
      tauto
    · simp only [Except.isOk, Except.toBool]
      tauto
    · simp only [Except.isOk, Except.toBool, Bool.or_eq_true, decide_eq_true_eq,
        Bool.not_eq_true', Bool.not_eq_false] at h1 h2 ⊢
      constructor
      · intro h
        exact absurd h (by simp)
      · rintro (h | h | h | h)
        · exact absurd (Or.inl h) h1
        · exact absurd (Or.inr h) h1
        · rw [h2] at h
          exact absurd h (by simp)
        · exact absurd h h3
  · rintro ⟨ho, hd, hlt, ha⟩
    have hna : ¬(a < 1) := by omega
    simp [mkFlightRequest, ho, hd, hlt, hna]

/-- Claim C3 witness: a concrete valid request constructs successfully with
the given fields. -/
theorem flight_request_validation_witness :
    ("LOS" ≠ "" ∧ "CAN" ≠ "" ∧
      Date.ltB ⟨2025, 12, 3⟩ ⟨2025, 12, 23⟩ = true ∧ (1 : Int) ≤ 1) ∧
    mkFlightRequest "LOS" "CAN" ⟨2025, 12, 3⟩ ⟨2025, 12, 23⟩ 1 =
      .ok ⟨"LOS", "CAN", ⟨2025, 12, 3⟩, ⟨2025, 12, 23⟩, 1⟩ :=
  ⟨by decide,
    (flight_request_validation "LOS" "CAN" ⟨2025, 12, 3⟩ ⟨2025, 12, 23⟩ 1).2
      (by decide)⟩

/-- Claim C10 counterexample: a ScraperError constructed with the non-None
final screenshot path `""` does not have that path in `screenshot_paths`
(Python truthiness skips the empty string). -/
theorem screenshot_path_empty_string_cex :
    (mkScraperError "m" (some "") none none).screenshot_paths = [] ∧
    ¬("" ∈ (mkScraperError "m" (some "") none none).screenshot_paths) := by
  decide

/-- Claim C10 (amended): for every ScraperError constructed with a non-None,
non-empty final screenshot path, that path is a member of `screenshot_paths`
after construction, whether or not a list was supplied; it is not added twice
when the supplied list already contains it; and with no paths at all,
`screenshot_paths` is empty. -/
theorem screenshot_paths_membership_amended (msg s : String)
    (hp : Option String) (sps : Option (List String)) (hs : s ≠ "") :
    s ∈ (mkScraperError msg (some s) hp sps).screenshot_paths ∧
    (∀ l, sps = some l → s ∈ l →
      (mkScraperError msg (some s) hp sps).screenshot_paths = l) ∧
    (mkScraperError msg none hp none).screenshot_paths = [] := by
  refine ⟨?_, ?_, rfl⟩
  · by_cases hmem : s ∈ sps.getD []
    · simp [mkScraperError, hs, hmem]
    · simp [mkScraperError, hs, hmem]
  · rintro l rfl hsl
    simp [mkScraperError, hs, hsl]

/-- Claim C10 witness: with final path "shot.png" and a supplied list already
containing it, the path is a member and the list is unchanged. -/
theorem screenshot_paths_membership_amended_witness :
    ("shot.png" : String) ≠ "" ∧
    "shot.png" ∈ (mkScraperError "m" (some "shot.png") none
      (some ["shot.png"])).screenshot_paths ∧
    (mkScraperError "m" (some "shot.png") none
      (some ["shot.png"])).screenshot_paths = ["shot.png"] :=
  ⟨by decide,
    (screenshot_paths_membership_amended "m" "shot.png" none
      (some ["shot.png"]) (by decide)).1,
    (screenshot_paths_membership_amended "m" "shot.png" none
      (some ["shot.png"]) (by decide)).2.1 ["shot.png"] rfl (by decide)⟩

/-- Claim C4 evidence: for a job failing with a diagnosed ScraperError whose
`screenshot_paths` holds two paths, `scan_all` produces an error entry
carrying only the single final `screenshot_path`, not the two-element
artifact list. -/
theorem diagnosed_error_entry_drops_artifact_list :
    (mkScraperError "boom" (some "p2") none
      (some ["p1", "p2"])).screenshot_paths = ["p1", "p2"] ∧
    (scan_all sampleRequest
      [("B", .diagnosed (mkScraperError "boom" (some "p2") none
        (some ["p1", "p2"])))]).2 =
      [⟨"B", "boom", some "p2"⟩] := by
  decide

/-- Claim C1: for every request and pairwise-distinct offer list containing
at least one exact match, the ranking step selects as exact match the first
offer in price-ascending scan order whose labels match; it is placed at
position 0 of the ranked result and appears nowhere else (so an offer that
is both the cheapest and the exact match appears exactly once, first). -/
theorem exact_match_pinned_first (req : FlightRequest)
    (offers : List FlightResult) (hnd : offers.Nodup)
    (hex : ∃ x ∈ offers, isExactOffer req x = true) :
    ∃ m, (sortedByPrice offers).find? (isExactOffer req) = some m ∧
      isExactOffer req m = true ∧
      (∃ l1 l2, sortedByPrice offers = l1 ++ m :: l2 ∧
        ∀ x ∈ l1, isExactOffer req x = false) ∧
      (rankResults req offers).head? = some m ∧
      (rankResults req offers).count m = 1 := by
  obtain ⟨x, hx, hpx⟩ := hex
  have hxs : x ∈ sortedByPrice offers :=
    (sortedByPrice_perm offers).mem_iff.mpr hx
  have hsome : ((sortedByPrice offers).find? (isExactOffer req)).isSome := by
    rw [List.find?_isSome]
    exact ⟨x, hxs, hpx⟩
  obtain ⟨m, hm⟩ := Option.isSome_iff_exists.mp hsome
  have hrank : rankResults req offers =
      m :: ((sortedByPrice offers).erase m).take 9 := by
    simp only [rankResults]
    rw [hm]
  refine ⟨m, hm, List.find?_some hm, ?_, ?_, ?_⟩
  · obtain ⟨hpm, as, bs, heq, hall⟩ := List.find?_eq_some.mp hm
    exact ⟨as, bs, heq, fun a ha => by simpa using hall a ha⟩
  · rw [hrank]
    rfl
  · have hnds : (sortedByPrice offers).Nodup :=
      ((sortedByPrice_perm offers).nodup_iff).mpr hnd
    have hnotmem : m ∉ ((sortedByPrice offers).erase m).take 9 :=
      fun h => hnds.not_mem_erase ((List.take_sublist 9 _).subset h)
    rw [hrank, List.count_cons_self, List.count_eq_zero.mpr hnotmem]

/-- Claim C1 witness: with requested dates 2025-12-03/2025-12-23, an offer
labeled "Dec 3"/"Dec 23" priced above the cheapest offer is selected and
pinned; the ranked list starts with it and holds it exactly once. -/
theorem exact_match_pinned_first_witness :
    ([mkOffer "Dec 5" "Dec 25" 50, mkOffer "Dec 3" "Dec 23" 100] :
        List FlightResult).Nodup ∧
    (∃ x ∈ [mkOffer "Dec 5" "Dec 25" 50, mkOffer "Dec 3" "Dec 23" 100],
      isExactOffer sampleRequest x = true) ∧
    (∃ m, (sortedByPrice [mkOffer "Dec 5" "Dec 25" 50,
        mkOffer "Dec 3" "Dec 23" 100]).find? (isExactOffer sampleRequest) =
          some m ∧
      isExactOffer sampleRequest m = true ∧
      (∃ l1 l2, sortedByPrice [mkOffer "Dec 5" "Dec 25" 50,
          mkOffer "Dec 3" "Dec 23" 100] = l1 ++ m :: l2 ∧
        ∀ x ∈ l1, isExactOffer sampleRequest x = false) ∧
      (rankResults sampleRequest [mkOffer "Dec 5" "Dec 25" 50,
          mkOffer "Dec 3" "Dec 23" 100]).head? = some m ∧
      (rankResults sampleRequest [mkOffer "Dec 5" "Dec 25" 50,
          mkOffer "Dec 3" "Dec 23" 100]).count m = 1) :=
  ⟨by decide, by decide,
    exact_match_pinned_first sampleRequest
      [mkOffer "Dec 5" "Dec 25" 50, mkOffer "Dec 3" "Dec 23" 100]
      (by decide) (by decide)⟩

/-- Claim C2: with no exact match the ranked result has exactly
min(9, n) entries, a prefix of a price-ascending permutation of the offers
(the n's cheapest); with an exact match it has exactly 1 + min(9, n-1)
entries: the match followed by a prefix (the up-to-9 first entries) of a
price-ascending permutation of the remaining offers, i.e. the up-to-9
cheapest of the remaining offers. -/
theorem ranked_result_length (req : FlightRequest)
    (offers : List FlightResult) :
    ((sortedByPrice offers).find? (isExactOffer req) = none →
      (rankResults req offers).length = min 9 offers.length ∧
      rankResults req offers <+: sortedByPrice offers ∧
      List.Pairwise (fun a b => a.price ≤ b.price) (sortedByPrice offers) ∧
      List.Perm (sortedByPrice offers) offers) ∧
    (∀ m, (sortedByPrice offers).find? (isExactOffer req) = some m →
      (rankResults req offers).length = 1 + min 9 (offers.length - 1) ∧
      rankResults req offers =
        m :: ((sortedByPrice offers).erase m).take 9 ∧
      ((sortedByPrice offers).erase m).take 9 <+:
        (sortedByPrice offers).erase m ∧
      List.Pairwise (fun a b => a.price ≤ b.price)
        ((sortedByPrice offers).erase m) ∧
      List.Perm ((sortedByPrice offers).erase m) (offers.erase m)) := by
  constructor
  · intro hnone
    have hrank : rankResults req offers = (sortedByPrice offers).take 9 := by
      simp only [rankResults]
      rw [hnone]
    refine ⟨?_, ?_, sortedByPrice_sorted offers, sortedByPrice_perm offers⟩
    · rw [hrank, List.length_take, (sortedByPrice_perm offers).length_eq]
    · rw [hrank]
      exact ⟨(sortedByPrice offers).drop 9, List.take_append_drop 9 _⟩
  · intro m hm
    have hrank : rankResults req offers =
        m :: ((sortedByPrice offers).erase m).take 9 := by
      simp only [rankResults]
      rw [hm]
    have hmem : m ∈ sortedByPrice offers := List.mem_of_find?_eq_some hm
    refine ⟨?_, hrank, ?_, ?_, ?_⟩
    · rw [hrank]
      simp only [List.length_cons, List.length_take,
        List.length_erase_of_mem hmem, (sortedByPrice_perm offers).length_eq]
      omega
    · exact ⟨((sortedByPrice offers).erase m).drop 9,
        List.take_append_drop 9 _⟩
    · exact List.Pairwise.sublist (List.erase_sublist m _)
        (sortedByPrice_sorted offers)
    · exact (sortedByPrice_perm offers).erase m

/-- Claim C2 witness: 12 non-matching offers yield exactly the 9 cheapest;
those 12 offers plus one exact match yield exactly 10 entries. -/
theorem ranked_result_length_witness :
    ((sortedByPrice (witnessOffers 12)).find? (isExactOffer sampleRequest) =
        none ∧
      (rankResults sampleRequest (witnessOffers 12)).length =
        min 9 (witnessOffers 12).length ∧
      min 9 (witnessOffers 12).length = 9) ∧
    ((sortedByPrice (matchOffer :: witnessOffers 12)).find?
        (isExactOffer sampleRequest) = some matchOffer ∧
      (rankResults sampleRequest (matchOffer :: witnessOffers 12)).length =
        1 + min 9 ((matchOffer :: witnessOffers 12).length - 1) ∧
      rankResults sampleRequest (matchOffer :: witnessOffers 12) =
        matchOffer ::
          ((sortedByPrice (matchOffer :: witnessOffers 12)).erase
            matchOffer).take 9 ∧
      1 + min 9 ((matchOffer :: witnessOffers 12).length - 1) = 10) :=
  ⟨⟨by decide,
      ((ranked_result_length sampleRequest (witnessOffers 12)).1
        (by decide)).1,
      by decide⟩,
    ⟨by decide,
      ((ranked_result_length sampleRequest (matchOffer :: witnessOffers 12)).2
        matchOffer (by decide)).1,
      ((ranked_result_length sampleRequest (matchOffer :: witnessOffers 12)).2
        matchOffer (by decide)).2.1,
      by decide⟩⟩

/-- Claim C6: with no exact match the ranked result is ordered by numeric
price ascending, and the sort is stable: for every price, the equal-price
offers of the ranked result form a prefix of the equal-price offers of the
input in their original order. -/
theorem ranked_result_sorted_stable (req : FlightRequest)
    (offers : List FlightResult)
    (hnone : (sortedByPrice offers).find? (isExactOffer req) = none) :
    List.Pairwise (fun a b => a.price ≤ b.price) (rankResults req offers) ∧
    ∀ p : Int, (rankResults req offers).filter (fun o => o.price == p) <+:
      offers.filter (fun o => o.price == p) := by
  have hrank : rankResults req offers = (sortedByPrice offers).take 9 := by
    simp only [rankResults]
    rw [hnone]
  constructor
  · rw [hrank]
    exact List.Pairwise.sublist (List.take_sublist 9 _)
      (sortedByPrice_sorted offers)
  · intro p
    rw [hrank]
    have hpre : (sortedByPrice offers).take 9 <+: sortedByPrice offers :=
      ⟨(sortedByPrice offers).drop 9, List.take_append_drop 9 _⟩
    have h2 := hpre.filter (fun o => o.price == p)
    rw [filter_price_sortedByPrice] at h2
    exact h2

/-- Claim C6 witness: offers with prices [100, 80, 120] and no exact match
are returned in price order [80, 100, 120]. -/
theorem ranked_result_sorted_stable_witness :
    (sortedByPrice stableOffers).find? (isExactOffer sampleRequest) = none ∧
    List.Pairwise (fun a b => a.price ≤ b.price)
      (rankResults sampleRequest stableOffers) ∧
    (rankResults sampleRequest stableOffers).map (fun o => o.price) =
      [80, 100, 120] :=
  ⟨by decide,
    (ranked_result_sorted_stable sampleRequest stableOffers (by decide)).1,
    by decide⟩

/-- Claim C7: the acceptable textual representations of a requested date are
exactly the four combinations {abbreviated month, full month} x {zero-padded
day, unpadded day}, and a label is accepted exactly when it contains one of
its side's four representations as a substring. -/
theorem date_formats_exact_four (d : Date) (label : String) :
    (∀ s : String, s ∈ dateFormats d ↔
      ∃ mth ∈ [monthAbbrev d.month, monthFull d.month],
        ∃ day ∈ [dayPadded d.day, dayUnpadded d.day],
          s = mth ++ " " ++ day) ∧
    (is_match label (dateFormats d) = true ↔
      ∃ fmt ∈ dateFormats d, ∃ l1 l2, label.data = l1 ++ fmt.data ++ l2) := by
  constructor
  · intro s
    constructor
    · intro hs
      simp only [dateFormats, List.mem_cons, List.not_mem_nil, or_false] at hs
      rcases hs with rfl | rfl | rfl | rfl
      · exact ⟨monthAbbrev d.month, by simp, dayUnpadded d.day, by simp, rfl⟩
      · exact ⟨monthAbbrev d.month, by simp, dayPadded d.day, by simp, rfl⟩
      · exact ⟨monthFull d.month, by simp, dayUnpadded d.day, by simp, rfl⟩
      · exact ⟨monthFull d.month, by simp, dayPadded d.day, by simp, rfl⟩
    · rintro ⟨mth, hm, day, hd, rfl⟩
      simp only [List.mem_cons, List.not_mem_nil, or_false] at hm hd
      rcases hm with rfl | rfl <;> rcases hd with rfl | rfl <;>
        simp [dateFormats]
  · rw [is_match, List.any_eq_true]
    constructor
    · rintro ⟨fmt, hf, hc⟩
      exact ⟨fmt, hf, (containsSub_iff fmt.data label.data).mp hc⟩
    · rintro ⟨fmt, hf, h⟩
      exact ⟨fmt, hf, (containsSub_iff fmt.data label.data).mpr h⟩

/-- Claim C9: for a fixed request and fixed per-job outcomes, two completion
orders that are permutations of one another produce result mappings with the
same key-set membership. -/
theorem result_keyset_completion_order_invariant (req : FlightRequest)
    (c1 c2 : List (String × JobOutcome)) (hp : List.Perm c1 c2) (n : String) :
    (n ∈ keys (scan_all req c1).1 ↔ n ∈ keys (scan_all req c2).1) := by
  simp only [scan_all]
  rw [mem_keys_scanFold, mem_keys_scanFold]
  simp only [keys, List.map_nil, List.not_mem_nil, false_or]
  constructor
  · rintro ⟨os, hmem, hne⟩
    exact ⟨os, hp.subset hmem, hne⟩
  · rintro ⟨os, hmem, hne⟩
    exact ⟨os, hp.symm.subset hmem, hne⟩

/-- Claim C9 witness: two permuted completion orders of the same two jobs
agree on whether "A" is a result key. -/
theorem result_keyset_completion_order_invariant_witness :
    List.Perm
      [("A", JobOutcome.success [mkOffer "Jan 1" "Jan 2" 1]),
        ("B", JobOutcome.undiagnosed "x")]
      [("B", JobOutcome.undiagnosed "x"),
        ("A", JobOutcome.success [mkOffer "Jan 1" "Jan 2" 1])] ∧
    ("A" ∈ keys (scan_all sampleRequest
        [("A", JobOutcome.success [mkOffer "Jan 1" "Jan 2" 1]),
          ("B", JobOutcome.undiagnosed "x")]).1 ↔
      "A" ∈ keys (scan_all sampleRequest
        [("B", JobOutcome.undiagnosed "x"),
          ("A", JobOutcome.success [mkOffer "Jan 1" "Jan 2" 1])]).1) :=
  ⟨by decide,
    result_keyset_completion_order_invariant sampleRequest _ _ (by decide) "A"⟩

/-- Claim C8: register always succeeds and appends, even for duplicate
names; when two jobs share a name and both succeed with offers, the result
mapping holds a single entry for that name, the later completion's ranked
results silently overwriting the earlier one's. -/
theorem register_append_and_result_overwrite :
    (∀ (orc : FlightOrchestrator) (s : AirlineScraper),
      (register_scraper orc s).scrapers = orc.scrapers ++ [s]) ∧
    (∀ (req : FlightRequest) (n : String) (o1 o2 : List FlightResult),
      o1 ≠ [] → o2 ≠ [] →
      keys (scan_all req [(n, .success o1), (n, .success o2)]).1 = [n] ∧
      (scan_all req [(n, .success o1), (n, .success o2)]).1.lookup n =
        some (rankResults req o2)) := by
  constructor
  · intro orc s
    rfl
  · intro req n o1 o2 h1 h2
    rcases o1 with _ | ⟨x1, t1⟩
    · exact absurd rfl h1
    rcases o2 with _ | ⟨x2, t2⟩
    · exact absurd rfl h2
    constructor
    · simp [scan_all, scanStep, dictInsert, keys]
    · simp [scan_all, scanStep, dictInsert, List.lookup]

/-- Claim C8 witness: registering a duplicate-named scraper appends it, and
two same-named successful jobs leave one result entry, the second job's. -/
theorem register_append_and_result_overwrite_witness :
    (register_scraper ⟨[⟨"E"⟩]⟩ ⟨"E"⟩).scrapers = [⟨"E"⟩, ⟨"E"⟩] ∧
    ([mkOffer "a" "b" 1] : List FlightResult) ≠ [] ∧
    ([mkOffer "c" "d" 2] : List FlightResult) ≠ [] ∧
    keys (scan_all sampleRequest
      [("E", .success [mkOffer "a" "b" 1]),
        ("E", .success [mkOffer "c" "d" 2])]).1 = ["E"] ∧
    (scan_all sampleRequest
      [("E", .success [mkOffer "a" "b" 1]),
        ("E", .success [mkOffer "c" "d" 2])]).1.lookup "E" =
      some (rankResults sampleRequest [mkOffer "c" "d" 2]) :=
  ⟨register_append_and_result_overwrite.1 ⟨[⟨"E"⟩]⟩ ⟨"E"⟩,
    by decide, by decide,
    (register_append_and_result_overwrite.2 sampleRequest "E"
      [mkOffer "a" "b" 1] [mkOffer "c" "d" 2] (by decide) (by decide)).1,
    (register_append_and_result_overwrite.2 sampleRequest "E"
      [mkOffer "a" "b" 1] [mkOffer "c" "d" 2] (by decide) (by decide)).2⟩

/-- Claim C5: over completions with pairwise-distinct job names, each job
contributes to exactly one side of the outcome: a key counted once in the
results for a non-empty success, exactly one error entry for a diagnosed or
undiagnosed failure, and neither for an empty success; no failure suppresses
any sibling's contribution. -/
theorem scan_all_per_job_contribution (req : FlightRequest)
    (comps : List (String × JobOutcome))
    (hnd : (comps.map Prod.fst).Nodup) (n : String) (o : JobOutcome)
    (hmem : (n, o) ∈ comps) :
    (∀ offers, o = .success offers → offers ≠ [] →
      (keys (scan_all req comps).1).count n = 1 ∧
      (scan_all req comps).2.filter (fun e => e.airline == n) = []) ∧
    (∀ offers, o = .success offers → offers = [] →
      n ∉ keys (scan_all req comps).1 ∧
      (scan_all req comps).2.filter (fun e => e.airline == n) = []) ∧
    (∀ se, o = .diagnosed se →
      n ∉ keys (scan_all req comps).1 ∧
      ((scan_all req comps).2.filter (fun e => e.airline == n)).length = 1) ∧
    (∀ msg, o = .undiagnosed msg →
      n ∉ keys (scan_all req comps).1 ∧
      ((scan_all req comps).2.filter (fun e => e.airline == n)).length = 1) := by
  have herr : (scan_all req comps).2 = comps.filterMap errOf := by
    have h := scanFold_errors req comps [] []
    simpa [scan_all] using h
  have hfilter : (scan_all req comps).2.filter (fun e => e.airline == n) =
      ([(n, o)] : List (String × JobOutcome)).filterMap errOf := by
    rw [herr, filterMap_errOf_filter, filter_name_nodup comps n o hnd hmem]
  have hkeys : ∀ a, a ∈ keys (scan_all req comps).1 ↔
      ∃ offers, (a, JobOutcome.success offers) ∈ comps ∧ offers ≠ [] := by
    intro a
    have h := mem_keys_scanFold req comps [] [] a
    simpa [scan_all, keys] using h
  have hnodupkeys : (keys (scan_all req comps).1).Nodup := by
    have h := nodup_keys_scanFold req comps [] [] (by simp [keys])
    simpa [scan_all] using h
  refine ⟨?_, ?_, ?_, ?_⟩
  · rintro offers rfl hne
    refine ⟨List.count_eq_one_of_mem hnodupkeys ((hkeys n).mpr
      ⟨offers, hmem, hne⟩), ?_⟩
    rw [hfilter]
    rfl
  · rintro offers rfl rfl
    constructor
    · rw [hkeys n]
      rintro ⟨os, hmem2, hne2⟩
      have h := name_unique comps n _ _ hnd hmem2 hmem
      apply hne2
      simpa using h
    · rw [hfilter]
      rfl
  · rintro se rfl
    constructor
    · rw [hkeys n]
      rintro ⟨os, hmem2, hne2⟩
      have h := name_unique comps n _ _ hnd hmem2 hmem
      exact absurd h (by simp)
    · rw [hfilter]
      rfl
  · rintro msg rfl
    constructor
    · rw [hkeys n]
      rintro ⟨os, hmem2, hne2⟩
      have h := name_unique comps n _ _ hnd hmem2 hmem
      exact absurd h (by simp)
    · rw [hfilter]
      rfl

/-- Claim C5 witness: with job A succeeding with one offer, job B failing
diagnosed with two diagnostic paths, and job C failing undiagnosed, A is a
result key exactly once with no error entry, and B and C each have exactly
one error entry and no result key. -/
theorem scan_all_per_job_contribution_witness :
    (witnessComps.map Prod.fst).Nodup ∧
    ((keys (scan_all sampleRequest witnessComps).1).count "A" = 1 ∧
      (scan_all sampleRequest witnessComps).2.filter
        (fun e => e.airline == "A") = []) ∧
    ("B" ∉ keys (scan_all sampleRequest witnessComps).1 ∧
      ((scan_all sampleRequest witnessComps).2.filter
        (fun e => e.airline == "B")).length = 1) ∧
    ("C" ∉ keys (scan_all sampleRequest witnessComps).1 ∧
      ((scan_all sampleRequest witnessComps).2.filter
        (fun e => e.airline == "C")).length = 1) :=
  ⟨by decide,
    (scan_all_per_job_contribution sampleRequest witnessComps (by decide) "A"
      (.success [mkOffer "Jan 1" "Jan 2" 5]) (by decide)).1
      [mkOffer "Jan 1" "Jan 2" 5] rfl (by decide),
    (scan_all_per_job_contribution sampleRequest witnessComps (by decide) "B"
      (.diagnosed (mkScraperError "boom" (some "p2") none
        (some ["p1", "p2"]))) (by decide)).2.2.1
      (mkScraperError "boom" (some "p2") none (some ["p1", "p2"])) rfl,
    (scan_all_per_job_contribution sampleRequest witnessComps (by decide) "C"
      (.undiagnosed "crash") (by decide)).2.2.2 "crash" rfl⟩

end AirlineFares
